import Mathlib

/-!
Shallow embedding of `docs/_ext/proxmox-scanrefs.py`: the `ReflabelMapper`
Sphinx builder that scans the section nodes of each parsed document for
reference labels and emits the `OnlineHelpInfo.js` online-help table.

Python strings are modelled as `String` (manipulated through their
code-point lists), the insertion-ordered Python dict `self.env.online_help`
as an association list with unique keys, and the filesystem outcomes of
`ReflabelMapper.init` as an abstract environment record.
-/

set_option autoImplicit false

/-- One value of the online-help table: a link (relative URL plus fragment)
and a human-readable section title. -/
structure AnchorEntry where
  link : String
  title : String
deriving Repr, DecidableEq

/-- The table `self.env.online_help`: a Python dict modelled as an
insertion-ordered association list. -/
abbrev AnchorTable := List (String × AnchorEntry)

/-- Python dict assignment `d[k] = v`: when the key is already present its
value is replaced in place (the key keeps its original insertion position),
otherwise the pair is appended at the end. -/
def dictInsert (d : AnchorTable) (k : String) (v : AnchorEntry) : AnchorTable :=
  if d.any (fun p => p.1 == k) then
    d.map (fun p => if p.1 == k then (p.1, v) else p)
  else
    d ++ [(k, v)]

/-- Python dict lookup `d.get(k)`. -/
def dictLookup (d : AnchorTable) (k : String) : Option AnchorEntry :=
  (d.find? (fun p => p.1 == k)).map Prod.snd

/-- Title node of a section (`node[0]` cast to `nodes.title`): the code reads
`getattr(title, 'rawsource', title.astext())`, so the node exposes an optional
`rawsource` attribute with the rendered text `astext()` as fallback. -/
structure TitleNode where
  rawsource : Option String
  astext : String
deriving Repr, DecidableEq

/-- A `docutils` section node as consumed by `write_doc`: whether the
renderer attached the `expect_referenced_by_id` attribute, the ordered
identifier list `node['ids']`, and the title node (its first child). -/
structure SectionNode where
  expect_referenced_by_id : Bool
  ids : List String
  titleNode : TitleNode
deriving Repr, DecidableEq

/-- One parsed document handed to `write_doc`: its source file path
(`self.env.doc2path(docname)`) and its section nodes in
`doctree.traverse(nodes.section)` order. -/
structure Document where
  path : String
  sections : List SectionNode
deriving Repr, DecidableEq

/-- Zero or more ASCII digits, optionally followed by one final newline:
the tail language accepted after `id` by `re.match('^id[0-9]*$', s)`, whose
dollar anchor also matches just before a newline that ends the string. -/
def digitsThenOptNewline : List Char → Bool
  | [] => true
  | c :: rest => (c == '\n' && rest.isEmpty) || (c.isDigit && digitsThenOptNewline rest)

/-- Test whether a character list is `id` followed by zero or more ASCII
digits, optionally followed by one trailing newline. -/
def isIdNum (l : List Char) : Bool :=
  match l with
  | c1 :: c2 :: rest => c1 == 'i' && c2 == 'd' && digitsThenOptNewline rest
  | _ => false

/-- Test of `re.match('^id[0-9]*$', s)`: the string is the two characters
`id` followed by zero or more ASCII digits; since Python's dollar anchor
also matches immediately before a newline at the end of the string, a
single trailing newline after the digits is accepted as well. -/
def matchesGenericId (s : String) : Bool :=
  isIdNum s.data

/-- Does the list of characters start with the three characters `rst`? -/
def startsWithRst (l : List Char) : Bool :=
  match l with
  | a :: b :: c :: _ => a == 'r' && b == 's' && c == 't'
  | _ => false

/-- Fuelled scanner behind `subAnyRst`; every step consumes at least one
character and one unit of fuel, so fuel equal to the list length is always
enough and the fuel-exhausted branch is never reached from `subAnyRst`. -/
def subAnyRstFuel : Nat → List Char → List Char
  | 0, l => l
  | _ + 1, [] => []
  | fuel + 1, c :: rest =>
    if c != '\n' && startsWithRst rest then
      '.' :: 'h' :: 't' :: 'm' :: 'l' :: subAnyRstFuel fuel (rest.drop 3)
    else
      c :: subAnyRstFuel fuel rest

/-- Model of `re.sub('.rst', '.html', s)` on the code points of `s`: the
pattern's unescaped dot matches any character except a newline, so every
leftmost non-overlapping occurrence of (any non-newline character followed
by `rst`) is replaced by `.html`. -/
def subAnyRst (l : List Char) : List Char :=
  subAnyRstFuel l.length l

/-- Does the character list contain the three consecutive characters
`rst` anywhere? -/
def containsRst : List Char → Bool
  | [] => false
  | c :: rest => startsWithRst (c :: rest) || containsRst rest

/-- Model of `os.path.basename` for POSIX paths: the part of the string
after the last slash. -/
def pyBasename (s : String) : String :=
  String.mk ((s.data.reverse.takeWhile (fun c => c != '/')).reverse)

/-- Computation of `ref_name` in `write_doc`: take
`getattr(title, 'rawsource', title.astext())`; if its first seven characters
are the marker `:term:\x60` then keep `ref_name[7:-1]`, dropping the
seven-character marker and the final character. -/
def extractRefName (t : TitleNode) : String :=
  let ref_name := t.rawsource.getD t.astext
  if ref_name.data.take 7 = (":term:`").data then
    String.mk ((ref_name.data.drop 7).dropLast)
  else
    ref_name

/-- Body of the per-section loop of `ReflabelMapper.write_doc`: when the node
has the `expect_referenced_by_id` attribute and more than one id, produce the
label id (first id when the second matches `^id[0-9]*$`, second id otherwise),
the link built from the substituted document path, and the extracted title;
otherwise the section contributes nothing.  The source first stores
`{'link': '', 'title': ''}` and immediately overwrites both fields, so the
net dict operation is a single insertion of the finished entry. -/
def sectionEntry? (path : String) (node : SectionNode) : Option (String × AnchorEntry) :=
  if node.expect_referenced_by_id && node.ids.length > 1 then
    let filename_html := String.mk (subAnyRst path.data)
    let labelid :=
      if matchesGenericId (node.ids.getD 1 "") then node.ids.getD 0 ""
      else node.ids.getD 1 ""
    let ref_name := extractRefName node.titleNode
    some (labelid,
      { link := "/docs/" ++ pyBasename filename_html ++ "#" ++ labelid
        title := ref_name })
  else
    none

/-- Effect of one section node of the loop of `write_doc` on the table. -/
def processNode (path : String) (t : AnchorTable) (node : SectionNode) : AnchorTable :=
  match sectionEntry? path node with
  | some (k, v) => dictInsert t k v
  | none => t

namespace ReflabelMapper

/-- Method `write_doc`: fold the per-section loop over all section nodes of
the document's tree, in traversal order. -/
def write_doc (doc : Document) (t : AnchorTable) : AnchorTable :=
  doc.sections.foldl (processNode doc.path) t

/-- Method `validate_anchors`: the anchor cross-check against the extjs
sources is entirely commented out in the source, so the method is a no-op
on the table. -/
def validate_anchors (t : AnchorTable) : AnchorTable := t

end ReflabelMapper

/-- Key of the bootstrap entry seeded by `ReflabelMapper.init`. -/
def bootstrapKey : String := "pbs_documentation_index"

/-- Value of the bootstrap entry seeded by `ReflabelMapper.init`. -/
def bootstrapEntry : AnchorEntry :=
  { link := "/docs/index.html"
    title := "Proxmox Backup Server Documentation Index" }

/-- Abstract outcome of the filesystem operations performed by
`ReflabelMapper.init` (`os.path.isdir`, `os.mkdir`, `io.open`): whether the
output directory already exists, whether creating it would succeed, and
whether opening the output file would succeed. -/
structure FsEnv where
  outdir_exists : Bool
  mkdir_ok : Bool
  open_ok : Bool
deriving Repr, DecidableEq

/-- The two ways `ReflabelMapper.init` can raise an I/O error. -/
inductive SetupError where
  | mkdirFailed
  | openFailed
deriving Repr, DecidableEq

namespace ReflabelMapper

/-- Method `init`: seed `self.env.online_help` with the bootstrap entry,
then create the output directory when absent and open the output file.  A
failing `os.mkdir` raises before `io.open` is attempted; either exception
aborts with the table still as seeded. -/
def init (fs : FsEnv) : AnchorTable × Option SetupError :=
  let t : AnchorTable := [(bootstrapKey, bootstrapEntry)]
  if !fs.outdir_exists && !fs.mkdir_ok then (t, some SetupError.mkdirFailed)
  else if !fs.open_ok then (t, some SetupError.openFailed)
  else (t, none)

end ReflabelMapper

/-- Lowercase hexadecimal digit, as produced by Python's json escaping. -/
def hexDigit (n : Nat) : Char :=
  if n < 10 then Char.ofNat ('0'.toNat + n) else Char.ofNat ('a'.toNat + (n - 10))

/-- Four lowercase hexadecimal digits of a number below 0x10000. -/
def hex4 (n : Nat) : List Char :=
  [hexDigit (n / 4096 % 16), hexDigit (n / 256 % 16), hexDigit (n / 16 % 16), hexDigit (n % 16)]

/-- Escaping of one character by `json.dumps` with its default
`ensure_ascii=True`: the two-character escapes for quote, backslash and the
five named control characters; printable ASCII kept verbatim; everything
else as `\uXXXX`, using a surrogate pair above 0xFFFF. -/
def jsonEscapeChar (c : Char) : List Char :=
  if c = '\"' then ['\\', '\"']
  else if c = '\\' then ['\\', '\\']
  else if c = '\x08' then ['\\', 'b']
  else if c = '\x09' then ['\\', 't']
  else if c = '\x0a' then ['\\', 'n']
  else if c = '\x0c' then ['\\', 'f']
  else if c = '\x0d' then ['\\', 'r']
  else if 0x20 ≤ c.toNat && c.toNat ≤ 0x7e then [c]
  else if c.toNat < 0x10000 then '\\' :: 'u' :: hex4 c.toNat
  else
    let v := c.toNat - 0x10000
    ('\\' :: 'u' :: hex4 (0xd800 + v / 0x400)) ++ ('\\' :: 'u' :: hex4 (0xdc00 + v % 0x400))

/-- A Python json string literal: quoted, characters escaped. -/
def jsonString (s : String) : String :=
  String.mk ('\"' :: (s.data.map jsonEscapeChar).flatten ++ ['\"'])

/-- One key/value pair of the table as rendered by
`json.dumps(..., indent=2)` at nesting depth one; the inner object always
holds the keys `link` and `title`, in that insertion order. -/
def dumpItem (p : String × AnchorEntry) : String :=
  "  " ++ jsonString p.1 ++ ": \x7b\n    \"link\": " ++ jsonString p.2.link ++
    ",\n    \"title\": " ++ jsonString p.2.title ++ "\n  \x7d"

/-- Items after the first, each preceded by the separator `,` and a
newline. -/
def dumpItemsRest : AnchorTable → String
  | [] => ""
  | p :: rest => ",\n" ++ dumpItem p ++ dumpItemsRest rest

/-- The rendered items of the table joined by `,` and a newline. -/
def dumpItems : AnchorTable → String
  | [] => ""
  | p :: rest => dumpItem p ++ dumpItemsRest rest

/-- Model of `json.dumps(table, indent=2)` for the online-help table: the
empty object is `\x7b\x7d`; otherwise the items are laid out one per line
with two-space indentation, in the dict's insertion order. -/
def jsonDumps (t : AnchorTable) : String :=
  match t with
  | [] => "\x7b\x7d"
  | _ => "\x7b\n" ++ dumpItems t ++ "\n\x7d"

namespace ReflabelMapper

/-- Method `finish`: run the (no-op) anchor validation, then write the
assignment statement around the json dump of the table, a closing
semicolon and one newline. -/
def finish (t : AnchorTable) : String :=
  "const proxmoxOnlineHelpInfo = " ++ jsonDumps (validate_anchors t) ++ ";\n"

end ReflabelMapper

/-- The table after a successful `init` followed by `write_doc` on each
document of `docs`, in order. -/
def runDocs (docs : List Document) : AnchorTable :=
  docs.foldl (fun t d => ReflabelMapper.write_doc d t) [(bootstrapKey, bootstrapEntry)]

/-- The full contents of `OnlineHelpInfo.js` produced at session end for a
successful session over `docs`. -/
def sessionOutput (docs : List Document) : String :=
  ReflabelMapper.finish (runDocs docs)

/-- A whole builder session against filesystem outcomes `fs`: `init` runs
first; when it raises, the session aborts with the table as seeded and no
document is processed; otherwise every document is processed in order. -/
def runSession (fs : FsEnv) (docs : List Document) : AnchorTable × Option SetupError :=
  match ReflabelMapper.init fs with
  | (t, some e) => (t, some e)
  | (t, none) => (docs.foldl (fun t d => ReflabelMapper.write_doc d t) t, none)

/-- All entries that the sections of one document insert, in traversal
order; `write_doc` performs exactly these dict insertions. -/
def docContribs (d : Document) : List (String × AnchorEntry) :=
  d.sections.filterMap (sectionEntry? d.path)

/-- Declarative reading of the spec's generic-placeholder pattern: the
string is the two characters `id` followed by zero or more digits.  Stated
independently of the code's regex test so that the disambiguation theorem
relates the two. -/
def specGenericPlaceholder (s : String) : Prop :=
  ∃ ds : List Char, s.data = 'i' :: 'd' :: ds ∧ ∀ c ∈ ds, c.isDigit = true

/-- Declarative reading of the test the code actually performs,
`re.match('^id[0-9]*$', s)`: the string is `id` followed by digits,
optionally followed by one trailing newline (Python's dollar anchor also
matches just before a newline that ends the string). -/
def specGenericPlaceholderNL (s : String) : Prop :=
  ∃ ds : List Char,
    (s.data = 'i' :: 'd' :: ds ∨ s.data = 'i' :: 'd' :: (ds ++ ['\n'])) ∧
    ∀ c ∈ ds, c.isDigit = true

/-- Declarative reading of the spec's link formula: the document path with
its trailing `.rst` extension replaced by `.html` (and left untouched when
it does not end in `.rst`).  Used only to compare the claimed link against
the one the code computes. -/
def specHtmlPath (p : String) : String :=
  if p.data.reverse.take 4 = ('t' :: 's' :: 'r' :: '.' :: []) then
    String.mk (p.data.take (p.data.length - 4) ++ ('.' :: 'h' :: 't' :: 'm' :: 'l' :: []))
  else p

/-- The link the spec's formula prescribes for a document path and a
canonical key. -/
def specLink (p k : String) : String :=
  "/docs/" ++ pyBasename (specHtmlPath p) ++ "#" ++ k

/-- Condition on a section's raw title text under which the stored title is
non-empty: the text is non-empty, and when it begins with the seven
character marker `:term:` plus backtick it is at least nine characters
long (so that something survives stripping the marker and the final
character). -/
def titleOk (s : SectionNode) : Bool :=
  let r := s.titleNode.rawsource.getD s.titleNode.astext
  !r.data.isEmpty && (!(r.data.take 7 == (":term:`").data) || 9 ≤ r.data.length)

/-- Concrete section with a generic second identifier, for the
disambiguation witness. -/
def c1Section : SectionNode :=
  { expect_referenced_by_id := true
    ids := ["slug", "id12"]
    titleNode := { rawsource := some "Heading", astext := "Heading" } }

/-- Concrete section whose second identifier is `id12` followed by a
newline: the code's `re.match('^id[0-9]*$', ...)` accepts it, although the
anchored pattern `id` plus digits does not. -/
def c1NewlineSection : SectionNode :=
  { expect_referenced_by_id := true
    ids := ["slug", "id12\n"]
    titleNode := { rawsource := some "Heading", astext := "Heading" } }

/-- Concrete document whose path contains `rst` before the extension: the
unescaped dot of `re.sub('.rst', '.html', ...)` mangles it. -/
def c3Doc : Document :=
  { path := "burst.rst"
    sections := [{ expect_referenced_by_id := true
                   ids := ["burst-sec", "lbl"]
                   titleNode := { rawsource := some "T", astext := "T" } }] }

/-- Concrete section matching the spec's storage-pools example. -/
def c3Section : SectionNode :=
  { expect_referenced_by_id := true
    ids := ["storage-pools", "storage-pool-mgmt"]
    titleNode := { rawsource := some "Storage Pools", astext := "Storage Pools" } }

/-- Concrete section whose raw title is wrapped in `:term:` markup. -/
def c4Section : SectionNode :=
  { expect_referenced_by_id := true
    ids := ["foo-bar", "foo-label"]
    titleNode := { rawsource := some ":term:`Foo Bar`", astext := "Foo Bar" } }

/-- First of two documents defining the same label `dup-label`. -/
def c5DocOne : Document :=
  { path := "one.rst"
    sections := [{ expect_referenced_by_id := true
                   ids := ["s1", "dup-label"]
                   titleNode := { rawsource := some "T1", astext := "T1" } }] }

/-- Second of two documents defining the same label `dup-label`. -/
def c5DocTwo : Document :=
  { path := "two.rst"
    sections := [{ expect_referenced_by_id := true
                   ids := ["s2", "dup-label"]
                   titleNode := { rawsource := some "T2", astext := "T2" } }] }

/-- Concrete section carrying a single identifier. -/
def c7Section : SectionNode :=
  { expect_referenced_by_id := true
    ids := ["only-id"]
    titleNode := { rawsource := some "T", astext := "T" } }

/-- Concrete document whose section has an empty raw title, so the recorded
entry has an empty title string. -/
def c8BadDoc : Document :=
  { path := "a.rst"
    sections := [{ expect_referenced_by_id := true
                   ids := ["a-sec", "a-lbl"]
                   titleNode := { rawsource := some "", astext := "" } }] }

/-- Concrete document all of whose section titles satisfy `titleOk`. -/
def c8GoodDoc : Document :=
  { path := "g.rst"
    sections := [{ expect_referenced_by_id := true
                   ids := ["g-sec", "g-lbl"]
                   titleNode := { rawsource := some ":term:`Good`", astext := "Good" } }] }

/-- Filesystem outcomes where the output directory is missing and cannot be
created. -/
def c9Fs : FsEnv :=
  { outdir_exists := false, mkdir_ok := false, open_ok := true }

/-- A document list that would contribute an entry, had `init` succeeded. -/
def c9Docs : List Document :=
  [{ path := "x.rst"
     sections := [{ expect_referenced_by_id := true
                    ids := ["x-sec", "x-lbl"]
                    titleNode := { rawsource := some "X", astext := "X" } }] }]

/-- Concrete section with two identifiers but without the
`expect_referenced_by_id` attribute. -/
def c10Section : SectionNode :=
  { expect_referenced_by_id := false
    ids := ["y-sec", "y-lbl"]
    titleNode := { rawsource := some "Y", astext := "Y" } }

/-- Concrete document none of whose sections carry the
`expect_referenced_by_id` attribute. -/
def c10Doc : Document :=
  { path := "y.rst"
    sections := [{ expect_referenced_by_id := false
                   ids := ["y-sec", "y-lbl"]
                   titleNode := { rawsource := some "Y", astext := "Y" } }] }

/-!
General helper lemmas about the embedded dictionary and string operations.
-/

/-- Two strings with the same code points are equal. -/
theorem string_data_inj {a b : String} (h : a.data = b.data) : a = b := by
  cases a
  cases b
  exact congrArg String.mk h

/-- A string with non-empty code points is not the empty string. -/
theorem string_ne_empty {s : String} (h : s.data ≠ []) : s ≠ "" := by
  intro hc
  apply h
  rw [hc]

/-- The keys of the table after a dict assignment: unchanged when the key
was present, extended by the new key at the end otherwise. -/
theorem keys_dictInsert (t : AnchorTable) (k : String) (v : AnchorEntry) :
    (dictInsert t k v).map Prod.fst =
      if t.any (fun p => p.1 == k) then t.map Prod.fst else t.map Prod.fst ++ [k] := by
  unfold dictInsert
  split
  · rw [List.map_map]
    apply List.map_congr_left
    intro p _
    by_cases h : p.1 == k <;> simp [Function.comp, h]
  · simp

/-- Looking up a key after a dict assignment: the new value for the
assigned key, the old lookup for every other key. -/
theorem lookup_dictInsert (t : AnchorTable) (a : String) (v : AnchorEntry) (k : String) :
    dictLookup (dictInsert t a v) k = if a == k then some v else dictLookup t k := by
  unfold dictLookup dictInsert
  by_cases hmem : t.any (fun p => p.1 == a)
  · rw [if_pos hmem]
    rw [List.find?_map]
    have hpred : ((fun p : String × AnchorEntry => p.1 == k) ∘
        (fun p : String × AnchorEntry => if p.1 == a then (p.1, v) else p)) =
        (fun p : String × AnchorEntry => p.1 == k) := by
      funext p
      by_cases h : p.1 == a <;> simp [Function.comp, h]
    rw [hpred]
    by_cases hak : a == k
    · rw [if_pos hak]
      have hak' : a = k := by simpa using hak
      subst hak'
      obtain ⟨q, hq, hqa⟩ := List.any_eq_true.mp hmem
      have hsome : (t.find? (fun p => p.1 == a)).isSome :=
        List.find?_isSome.mpr ⟨q, hq, hqa⟩
      obtain ⟨r, hr⟩ := Option.isSome_iff_exists.mp hsome
      rw [hr]
      have hra : r.1 = a := by simpa using List.find?_some hr
      simp [hra]
    · rw [if_neg hak]
      cases hf : t.find? (fun p => p.1 == k) with
      | none => simp
      | some q =>
        have hqk : q.1 = k := by simpa using List.find?_some hf
        have hqa : ¬(q.1 == a) = true := by
          simp only [hqk, beq_iff_eq]
          intro hc
          exact hak (by simp [hc])
        simp [hqa]
        rw [if_neg (show ¬q.1 = a from fun hc => hqa (by simp [hc]))]
  · rw [if_neg hmem]
    rw [List.find?_append]
    by_cases hak : a == k
    · have hak' : a = k := by simpa using hak
      subst hak'
      have hnone : t.find? (fun p => p.1 == a) = none := by
        rw [List.find?_eq_none]
        intro x hx
        exact fun hc => hmem (List.any_eq_true.mpr ⟨x, hx, hc⟩)
      rw [hnone]
      simp [List.find?_cons]
    · rw [if_neg hak]
      have hsingle : List.find? (fun p => p.1 == k) [(a, v)] = none := by
        simp [List.find?_cons, hak]
      rw [hsingle]
      simp

/-- A dict assignment keeps the keys of the table free of duplicates. -/
theorem nodup_keys_dictInsert {t : AnchorTable} (k : String) (v : AnchorEntry)
    (h : (t.map Prod.fst).Nodup) : ((dictInsert t k v).map Prod.fst).Nodup := by
  rw [keys_dictInsert]
  split
  · exact h
  · next hany =>
    rw [List.nodup_append]
    refine ⟨h, List.nodup_singleton _, ?_⟩
    intro x hx hx'
    have hxk : x = k := by simpa using hx'
    subst hxk
    obtain ⟨p, hp, hpk⟩ := List.mem_map.mp hx
    exact hany (List.any_eq_true.mpr ⟨p, hp, by simp [hpk]⟩)

/-- A dict assignment never changes the first key of a non-empty table. -/
theorem head_key_dictInsert {t : AnchorTable} {a : String} {e : AnchorEntry}
    {rest : AnchorTable} (h : t = (a, e) :: rest) (k : String) (v : AnchorEntry) :
    ∃ e' rest', dictInsert t k v = (a, e') :: rest' := by
  subst h
  unfold dictInsert
  split
  · by_cases hak : a = k
    · subst hak
      exact ⟨v, rest.map (fun p => if p.1 == a then (p.1, v) else p), by simp⟩
    · exact ⟨e, rest.map (fun p => if p.1 == k then (p.1, v) else p), by simp [hak]⟩
  · exact ⟨e, rest ++ [(k, v)], by simp⟩

/-- Folding dict assignments never changes the first key of a non-empty
table. -/
theorem head_key_foldl (l : List (String × AnchorEntry)) :
    ∀ (t : AnchorTable) (a : String) (e : AnchorEntry) (rest : AnchorTable),
      t = (a, e) :: rest →
      ∃ e' rest', l.foldl (fun t p => dictInsert t p.1 p.2) t = (a, e') :: rest' := by
  induction l with
  | nil =>
    intro t a e rest h
    exact ⟨e, rest, h⟩
  | cons p l ih =>
    intro t a e rest h
    simp only [List.foldl_cons]
    obtain ⟨e', rest', h'⟩ := head_key_dictInsert h p.1 p.2
    exact ih _ a e' rest' h'

/-- Folding dict assignments keeps the keys free of duplicates. -/
theorem nodup_keys_foldl (l : List (String × AnchorEntry)) :
    ∀ t : AnchorTable, (t.map Prod.fst).Nodup →
      ((l.foldl (fun t p => dictInsert t p.1 p.2) t).map Prod.fst).Nodup := by
  induction l with
  | nil =>
    intro t h
    exact h
  | cons p l ih =>
    intro t h
    simp only [List.foldl_cons]
    exact ih _ (nodup_keys_dictInsert p.1 p.2 h)

/-- Looking up a key after folding a list of dict assignments: the value of
the last assignment to that key when there is one, the original lookup
otherwise. -/
theorem lookup_foldl (l : List (String × AnchorEntry)) :
    ∀ (t : AnchorTable) (k : String),
      dictLookup (l.foldl (fun t p => dictInsert t p.1 p.2) t) k =
        ((l.reverse.find? (fun p => p.1 == k)).map Prod.snd).or (dictLookup t k) := by
  induction l with
  | nil =>
    intro t k
    simp
  | cons p l ih =>
    intro t k
    simp only [List.foldl_cons, List.reverse_cons, List.find?_append]
    rw [ih, lookup_dictInsert]
    cases hf : l.reverse.find? (fun q => q.1 == k) with
    | some q => simp
    | none =>
      by_cases hpk : (p.1 == k) = true
      · simp [List.find?_cons, hpk]
      · simp [List.find?_cons, hpk]

/-- A successful lookup means the key is among the table's keys. -/
theorem mem_keys_of_lookup {t : AnchorTable} {k : String} {v : AnchorEntry}
    (h : dictLookup t k = some v) : k ∈ t.map Prod.fst := by
  unfold dictLookup at h
  cases hf : t.find? (fun p => p.1 == k) with
  | none =>
    rw [hf] at h
    simp at h
  | some q =>
    have hqk : q.1 = k := by simpa using List.find?_some hf
    have hmem := List.mem_of_find?_eq_some hf
    exact hqk ▸ List.mem_map_of_mem Prod.fst hmem

/-- The section loop of `write_doc` is the fold of the dict insertions of
the entries the sections contribute. -/
theorem foldl_processNode (path : String) (l : List SectionNode) :
    ∀ t : AnchorTable,
      l.foldl (processNode path) t =
        (l.filterMap (sectionEntry? path)).foldl (fun t p => dictInsert t p.1 p.2) t := by
  induction l with
  | nil =>
    intro t
    rfl
  | cons n l ih =>
    intro t
    simp only [List.foldl_cons, List.filterMap_cons]
    cases hn : sectionEntry? path n with
    | none =>
      rw [show processNode path t n = t by simp [processNode, hn]]
      exact ih t
    | some p =>
      rw [show processNode path t n = dictInsert t p.1 p.2 by simp [processNode, hn]]
      simp only [List.foldl_cons]
      exact ih _

/-- `write_doc` as the fold of the document's contributed entries. -/
theorem write_doc_eq_contribs (d : Document) (t : AnchorTable) :
    ReflabelMapper.write_doc d t =
      (docContribs d).foldl (fun t p => dictInsert t p.1 p.2) t :=
  foldl_processNode d.path d.sections t

/-- A whole successful session is the fold of all contributed entries over
the seeded table. -/
theorem runDocs_eq_contribs (docs : List Document) :
    runDocs docs =
      ((docs.map docContribs).flatten).foldl (fun t p => dictInsert t p.1 p.2)
        [(bootstrapKey, bootstrapEntry)] := by
  unfold runDocs
  suffices h : ∀ t : AnchorTable,
      docs.foldl (fun t d => ReflabelMapper.write_doc d t) t =
        ((docs.map docContribs).flatten).foldl (fun t p => dictInsert t p.1 p.2) t from
    h _
  induction docs with
  | nil =>
    intro t
    rfl
  | cons d docs ih =>
    intro t
    simp only [List.foldl_cons, List.map_cons, List.flatten_cons, List.foldl_append]
    rw [write_doc_eq_contribs]
    exact ih _

/-- The table of any session starts with the bootstrap key. -/
theorem runDocs_head (docs : List Document) :
    ∃ e rest, runDocs docs = (bootstrapKey, e) :: rest := by
  rw [runDocs_eq_contribs]
  exact head_key_foldl _ _ bootstrapKey bootstrapEntry [] rfl

/-- Characterization of the tail language after `id`: digits, optionally
followed by a single final newline. -/
theorem digitsThenOptNewline_iff (l : List Char) :
    digitsThenOptNewline l = true ↔
      ∃ ds : List Char, (l = ds ∨ l = ds ++ ['\n']) ∧ ∀ c ∈ ds, c.isDigit = true := by
  induction l with
  | nil =>
    constructor
    · intro _
      exact ⟨[], Or.inl rfl, by simp⟩
    · intro _
      rfl
  | cons c rest ih =>
    simp only [digitsThenOptNewline, Bool.or_eq_true, Bool.and_eq_true, beq_iff_eq,
      List.isEmpty_iff]
    constructor
    · rintro (⟨hcn, hre⟩ | ⟨hcd, hrest⟩)
      · subst hcn
        subst hre
        exact ⟨[], Or.inr rfl, by simp⟩
      · obtain ⟨ds, hd | hd, hdig⟩ := ih.mp hrest
        · refine ⟨c :: ds, Or.inl (by rw [hd]), ?_⟩
          intro x hx
          rcases List.mem_cons.mp hx with hx | hx
          · exact hx ▸ hcd
          · exact hdig x hx
        · refine ⟨c :: ds, Or.inr (by rw [hd, List.cons_append]), ?_⟩
          intro x hx
          rcases List.mem_cons.mp hx with hx | hx
          · exact hx ▸ hcd
          · exact hdig x hx
    · rintro ⟨ds, hd | hd, hdig⟩
      · cases ds with
        | nil => exact absurd hd (by simp)
        | cons e es =>
          injection hd with h1 h2
          subst h1
          refine Or.inr ⟨hdig c (List.mem_cons_self _ _), ?_⟩
          exact ih.mpr ⟨es, Or.inl h2, fun x hx => hdig x (List.mem_cons_of_mem _ hx)⟩
      · cases ds with
        | nil =>
          injection hd with h1 h2
          exact Or.inl ⟨h1, h2⟩
        | cons e es =>
          rw [List.cons_append] at hd
          injection hd with h1 h2
          subst h1
          refine Or.inr ⟨hdig c (List.mem_cons_self _ _), ?_⟩
          exact ih.mpr ⟨es, Or.inr h2, fun x hx => hdig x (List.mem_cons_of_mem _ hx)⟩

/-- Characterization of the code's regex test: `id`, digits, and optionally
one trailing newline accepted by the dollar anchor. -/
theorem isIdNum_iff (l : List Char) :
    isIdNum l = true ↔
      ∃ ds : List Char, (l = 'i' :: 'd' :: ds ∨ l = 'i' :: 'd' :: (ds ++ ['\n'])) ∧
        ∀ c ∈ ds, c.isDigit = true := by
  cases l with
  | nil =>
    simp [isIdNum]
  | cons c1 tl =>
    cases tl with
    | nil =>
      simp [isIdNum]
    | cons c2 rest =>
      simp only [isIdNum, Bool.and_eq_true, beq_iff_eq]
      rw [digitsThenOptNewline_iff]
      constructor
      · rintro ⟨⟨h1, h2⟩, ds, hd | hd, hdig⟩
        · exact ⟨ds, Or.inl (by rw [h1, h2, hd]), hdig⟩
        · exact ⟨ds, Or.inr (by rw [h1, h2, hd]), hdig⟩
      · rintro ⟨ds, hd | hd, hdig⟩
        · injection hd with h1 h2
          injection h2 with h2 h3
          exact ⟨⟨h1, h2⟩, ds, Or.inl h3, hdig⟩
        · injection hd with h1 h2
          injection h2 with h2 h3
          exact ⟨⟨h1, h2⟩, ds, Or.inr h3, hdig⟩

/-- The fuelled scanner maps the empty list to the empty list at any fuel. -/
theorem subAnyRstFuel_nil (fuel : Nat) : subAnyRstFuel fuel [] = [] := by
  cases fuel <;> rfl

/-- A stem free of `rst` followed by the extension `.rst` never starts a
match of the pattern before the final four characters. -/
theorem startsWithRst_stem_suffix (l : List Char) (h : containsRst l = false) :
    startsWithRst (l ++ ('.' :: 'r' :: 's' :: 't' :: [])) = false := by
  match l with
  | [] =>
    rfl
  | [a] =>
    simp [startsWithRst, show (('.' : Char) == 's') = false from rfl]
  | [a, b] =>
    simp [startsWithRst, show (('.' : Char) == 't') = false from rfl]
  | a :: b :: c :: tl =>
    have h' : startsWithRst (a :: b :: c :: tl) = false := by
      have := h
      simp only [containsRst, Bool.or_eq_false_iff] at this
      exact this.1
    simpa [startsWithRst] using h'

/-- With enough fuel, scanning a stem free of `rst` followed by `.rst`
replaces exactly the final `.rst` by `.html`. -/
theorem subAnyRstFuel_stem (l : List Char) :
    ∀ fuel : Nat, (l ++ ('.' :: 'r' :: 's' :: 't' :: [])).length ≤ fuel →
      containsRst l = false →
      subAnyRstFuel fuel (l ++ ('.' :: 'r' :: 's' :: 't' :: [])) =
        l ++ ('.' :: 'h' :: 't' :: 'm' :: 'l' :: []) := by
  induction l with
  | nil =>
    intro fuel hfuel _
    cases fuel with
    | zero => simp at hfuel
    | succ f =>
      show subAnyRstFuel (f + 1) ('.' :: 'r' :: 's' :: 't' :: []) = _
      rw [subAnyRstFuel, if_pos (by decide)]
      simp [subAnyRstFuel_nil]
  | cons c l' ih =>
    intro fuel hfuel hrst
    have hsplit : startsWithRst (c :: l') = false ∧ containsRst l' = false := by
      simpa [containsRst, Bool.or_eq_false_iff] using hrst
    cases fuel with
    | zero => simp at hfuel
    | succ f =>
      simp only [List.cons_append]
      rw [subAnyRstFuel,
        if_neg (by
          rw [startsWithRst_stem_suffix l' hsplit.2]
          simp)]
      have hlen : (l' ++ ('.' :: 'r' :: 's' :: 't' :: [])).length ≤ f := by
        simp only [List.cons_append, List.length_cons] at hfuel
        simp only [List.length_append, List.length_cons]
        simp only [List.length_append, List.length_cons] at hfuel
        omega
      rw [ih f hlen hsplit.2]

/-- Scanning a stem free of `rst` followed by `.rst` replaces exactly the
final extension. -/
theorem subAnyRst_stem (l : List Char) (h : containsRst l = false) :
    subAnyRst (l ++ ('.' :: 'r' :: 's' :: 't' :: [])) =
      l ++ ('.' :: 'h' :: 't' :: 'm' :: 'l' :: []) :=
  subAnyRstFuel_stem l _ (Nat.le_refl _) h

/-!
Claim theorems.
-/

/-- C1 counterexample: for a section with identifiers `[slug, id12
newline]`, the second identifier does not match the anchored pattern `id`
followed by digits, so the claim prescribes it as the canonical key; but
`re.match('^id[0-9]*$', ...)` accepts it (the dollar anchor also matches
before a trailing newline), so the code uses the first identifier `slug`. -/
theorem canonical_key_counterexample :
    ¬ specGenericPlaceholder ("id12\n" : String) ∧
      (sectionEntry? "storage.rst" c1NewlineSection).map Prod.fst = some "slug" ∧
      ("slug" : String) ≠ "id12\n" := by
  refine ⟨?_, by decide, by decide⟩
  rintro ⟨ds, hd, hdig⟩
  have h2 : ('i' :: 'd' :: '1' :: '2' :: '\n' :: ([] : List Char)) = 'i' :: 'd' :: ds := hd
  have h3 : ds = '1' :: '2' :: '\n' :: ([] : List Char) := by simpa using h2.symm
  have hmem : '\n' ∈ ds := by
    rw [h3]
    simp
  exact absurd (hdig '\n' hmem) (by decide)

/-- C1 amended: for every section processed by `write_doc` that carries at
least two identifiers, the canonical key of the table entry is the first
identifier when the second is `id` followed by digits optionally followed
by one trailing newline (the test the code's regex match performs), and the
second identifier otherwise. -/
theorem canonical_key_disambiguation (path : String) (n : SectionNode)
    (h1 : n.expect_referenced_by_id = true) (h2 : 1 < n.ids.length) :
    ∃ k e, sectionEntry? path n = some (k, e) ∧
      (specGenericPlaceholderNL (n.ids.getD 1 "") → k = n.ids.getD 0 "") ∧
      (¬ specGenericPlaceholderNL (n.ids.getD 1 "") → k = n.ids.getD 1 "") := by
  unfold sectionEntry?
  rw [h1, if_pos (by simp [h2])]
  refine ⟨_, _, rfl, ?_, ?_⟩
  · intro hs
    have hm : matchesGenericId (n.ids.getD 1 "") = true :=
      (isIdNum_iff _).mpr hs
    rw [if_pos hm]
  · intro hs
    have hm : matchesGenericId (n.ids.getD 1 "") = false := by
      cases hmm : matchesGenericId (n.ids.getD 1 "") with
      | false => rfl
      | true => exact absurd ((isIdNum_iff _).mp hmm) hs
    rw [if_neg (by rw [hm]; exact Bool.false_ne_true)]

/-- Witness for the amended C1 at a section with identifiers
`[slug, id12]`. -/
theorem canonical_key_disambiguation_witness :
    c1Section.expect_referenced_by_id = true ∧ 1 < c1Section.ids.length ∧
      (∃ k e, sectionEntry? "storage.rst" c1Section = some (k, e) ∧
        (specGenericPlaceholderNL (c1Section.ids.getD 1 "") → k = c1Section.ids.getD 0 "") ∧
        (¬ specGenericPlaceholderNL (c1Section.ids.getD 1 "") → k = c1Section.ids.getD 1 "")) :=
  ⟨rfl, by decide, canonical_key_disambiguation "storage.rst" c1Section rfl (by decide)⟩

/-- C2: after any sequence of processed documents, including the empty one,
the bootstrap key is present in the table, it is the table's first key, and
the serialized output opens with it. -/
theorem bootstrap_entry_always_first (docs : List Document) :
    bootstrapKey ∈ (runDocs docs).map Prod.fst ∧
      ((runDocs docs).map Prod.fst).head? = some bootstrapKey ∧
      ∃ s, sessionOutput docs =
        "const proxmoxOnlineHelpInfo = \x7b\n  \"pbs_documentation_index\": " ++ s := by
  obtain ⟨e, rest, h⟩ := runDocs_head docs
  refine ⟨?_, ?_, ?_⟩
  · rw [h]
    simp
  · rw [h]
    simp
  · refine ⟨"\x7b\n    \"link\": " ++ jsonString e.link ++ ",\n    \"title\": " ++
      jsonString e.title ++ "\n  \x7d" ++ dumpItemsRest rest ++ "\n\x7d" ++ ";\n", ?_⟩
    unfold sessionOutput ReflabelMapper.finish ReflabelMapper.validate_anchors
    rw [h]
    rfl

/-- C7: a section carrying only one identifier leaves the table completely
unchanged. -/
theorem single_identifier_section_noop (path : String) (t : AnchorTable)
    (n : SectionNode) (h : n.ids.length = 1) : processNode path t n = t := by
  simp [processNode, sectionEntry?, h]

/-- Witness for C7 at a section with the single identifier `only-id`. -/
theorem single_identifier_section_noop_witness :
    c7Section.ids.length = 1 ∧
      processNode "a.rst" [(bootstrapKey, bootstrapEntry)] c7Section =
        [(bootstrapKey, bootstrapEntry)] :=
  ⟨rfl, single_identifier_section_noop "a.rst" _ c7Section rfl⟩

/-- C9: a session fails during initialization exactly when the output
directory is absent and cannot be created, or the output file cannot be
opened; in that case the session aborts with no table entry beyond the
bootstrap seeding. -/
theorem init_io_failure (fs : FsEnv) (docs : List Document) :
    ((runSession fs docs).2.isSome = ((!fs.outdir_exists && !fs.mkdir_ok) || !fs.open_ok)) ∧
    ((runSession fs docs).2.isSome = true →
      (runSession fs docs).1 = [(bootstrapKey, bootstrapEntry)]) := by
  rcases fs with ⟨oe, mo, oo⟩
  cases oe <;> cases mo <;> cases oo <;>
    simp [runSession, ReflabelMapper.init]

/-- Witness for C9 at filesystem outcomes where the directory creation
fails. -/
theorem init_io_failure_witness :
    (runSession c9Fs c9Docs).2.isSome = true ∧
      (runSession c9Fs c9Docs).1 = [(bootstrapKey, bootstrapEntry)] :=
  ⟨by decide, (init_io_failure c9Fs c9Docs).2 (by decide)⟩

/-- C10: a section contributes an entry only when it both carries at least
two identifiers and has the `expect_referenced_by_id` attribute; a document
whose sections all lack the attribute leaves the table unchanged even when
they carry two identifiers. -/
theorem entry_requires_expect_and_two_ids :
    (∀ (path : String) (t : AnchorTable) (n : SectionNode),
        ¬(n.expect_referenced_by_id = true ∧ 1 < n.ids.length) →
        processNode path t n = t) ∧
    (∀ (d : Document) (t : AnchorTable),
        (∀ s ∈ d.sections, s.expect_referenced_by_id = false) →
        ReflabelMapper.write_doc d t = t) := by
  have hnode : ∀ (path : String) (t : AnchorTable) (n : SectionNode),
      ¬(n.expect_referenced_by_id = true ∧ 1 < n.ids.length) →
      processNode path t n = t := by
    intro path t n h
    have hcond : (n.expect_referenced_by_id && decide (n.ids.length > 1)) = false := by
      cases he : n.expect_referenced_by_id with
      | false => simp
      | true =>
        simp only [Bool.true_and, decide_eq_false_iff_not]
        intro hlt
        exact h ⟨he, hlt⟩
    simp [processNode, sectionEntry?, hcond]
  refine ⟨hnode, ?_⟩
  intro d t hall
  unfold ReflabelMapper.write_doc
  have hfold : ∀ (l : List SectionNode), (∀ s ∈ l, s.expect_referenced_by_id = false) →
      ∀ t : AnchorTable, l.foldl (processNode d.path) t = t := by
    intro l
    induction l with
    | nil =>
      intro _ t
      rfl
    | cons s l ih =>
      intro hall t
      simp only [List.foldl_cons]
      rw [hnode d.path t s (by
        intro hc
        rw [hall s (List.mem_cons_self s l)] at hc
        exact Bool.false_ne_true hc.1)]
      exact ih (fun s' hs' => hall s' (List.mem_cons_of_mem _ hs')) t
  exact hfold d.sections hall t

/-- Witness for C10 at a section and a document lacking the attribute while
carrying two identifiers. -/
theorem entry_requires_expect_and_two_ids_witness :
    (¬(c10Section.expect_referenced_by_id = true ∧ 1 < c10Section.ids.length)) ∧
      processNode "y.rst" [(bootstrapKey, bootstrapEntry)] c10Section =
        [(bootstrapKey, bootstrapEntry)] ∧
      (∀ s ∈ c10Doc.sections, s.expect_referenced_by_id = false) ∧
      ReflabelMapper.write_doc c10Doc [(bootstrapKey, bootstrapEntry)] =
        [(bootstrapKey, bootstrapEntry)] :=
  ⟨by decide,
   entry_requires_expect_and_two_ids.1 "y.rst" _ c10Section (by decide),
   by decide,
   entry_requires_expect_and_two_ids.2 c10Doc _ (by decide)⟩

/-- C3 counterexample: for the document path `burst.rst` the recorded link
is `/docs/b.html.html#lbl` because the unescaped dot of
`re.sub('.rst', '.html', ...)` also rewrites the `urst` inside the stem,
while the claimed basename-with-extension-replaced formula prescribes
`/docs/burst.html#lbl`. -/
theorem link_replacement_counterexample :
    (dictLookup (runDocs [c3Doc]) "lbl").map AnchorEntry.link =
        some "/docs/b.html.html#lbl" ∧
      specLink c3Doc.path "lbl" = "/docs/burst.html#lbl" ∧
      ("/docs/b.html.html#lbl" : String) ≠ "/docs/burst.html#lbl" := by
  refine ⟨?_, ?_, ?_⟩
  · decide
  · decide
  · decide

/-- C3 amended: for every recorded section of a document whose path is a
stem containing no occurrence of `rst` followed by the extension `.rst`,
the entry's link is `/docs/` plus the basename of the path with the
extension replaced by `.html`, plus `#` plus the canonical key. -/
theorem link_construction_amended (stem : String) (n : SectionNode)
    (h1 : n.expect_referenced_by_id = true) (h2 : 1 < n.ids.length)
    (h3 : containsRst stem.data = false) :
    ∃ k e, sectionEntry? (stem ++ ".rst") n = some (k, e) ∧
      e.link = "/docs/" ++ pyBasename (stem ++ ".html") ++ "#" ++ k := by
  have hsub : String.mk (subAnyRst (stem ++ ".rst").data) = stem ++ ".html" := by
    apply string_data_inj
    show subAnyRst (stem ++ ".rst").data = (stem ++ ".html").data
    have hdata : (stem ++ ".rst").data = stem.data ++ ('.' :: 'r' :: 's' :: 't' :: []) := by
      rw [String.data_append]
    rw [hdata, subAnyRst_stem stem.data h3, String.data_append]
  unfold sectionEntry?
  rw [h1, if_pos (by simp [h2])]
  refine ⟨_, _, rfl, ?_⟩
  dsimp only
  rw [hsub]

/-- Witness for the amended C3 at the spec's storage-pools example. -/
theorem link_construction_amended_witness :
    c3Section.expect_referenced_by_id = true ∧ 1 < c3Section.ids.length ∧
      containsRst ("storage" : String).data = false ∧
      (∃ k e, sectionEntry? ("storage" ++ ".rst") c3Section = some (k, e) ∧
        e.link = "/docs/" ++ pyBasename ("storage" ++ ".html") ++ "#" ++ k) :=
  ⟨rfl, by decide, by decide,
   link_construction_amended "storage" c3Section rfl (by decide) (by decide)⟩

/-- C4: the stored title of a recorded section is the raw source text of
its title node, except that a text beginning with the seven character
marker `:term:` plus backtick loses the marker and its final character. -/
theorem title_term_marker_stripping (path : String) (n : SectionNode) (raw : String)
    (h1 : n.expect_referenced_by_id = true) (h2 : 1 < n.ids.length)
    (h3 : n.titleNode.rawsource = some raw) :
    ∃ k e, sectionEntry? path n = some (k, e) ∧
      (raw.data.take 7 = (":term:`").data →
        e.title = String.mk ((raw.data.drop 7).dropLast)) ∧
      (raw.data.take 7 ≠ (":term:`").data → e.title = raw) := by
  unfold sectionEntry?
  rw [h1, if_pos (by simp [h2])]
  refine ⟨_, _, rfl, ?_, ?_⟩
  · intro hc
    show extractRefName n.titleNode = _
    simp only [extractRefName, h3, Option.getD_some]
    rw [if_pos hc]
  · intro hc
    show extractRefName n.titleNode = _
    simp only [extractRefName, h3, Option.getD_some]
    rw [if_neg hc]

/-- Witness for C4 at the raw title `:term:` plus backtick plus `Foo Bar`
plus backtick, stored as `Foo Bar`. -/
theorem title_term_marker_stripping_witness :
    c4Section.expect_referenced_by_id = true ∧ 1 < c4Section.ids.length ∧
      c4Section.titleNode.rawsource = some ":term:`Foo Bar`" ∧
      (∃ k e, sectionEntry? "glossary.rst" c4Section = some (k, e) ∧
        ((":term:`Foo Bar`" : String).data.take 7 = (":term:`").data →
          e.title = String.mk (((":term:`Foo Bar`" : String).data.drop 7).dropLast)) ∧
        ((":term:`Foo Bar`" : String).data.take 7 ≠ (":term:`").data →
          e.title = ":term:`Foo Bar`")) ∧
      String.mk (((":term:`Foo Bar`" : String).data.drop 7).dropLast) = "Foo Bar" :=
  ⟨rfl, by decide, rfl,
   title_term_marker_stripping "glossary.rst" c4Section ":term:`Foo Bar`" rfl (by decide) rfl,
   by decide⟩

/-- C5: when several processed sections (in particular, sections of two
different documents) record the same canonical label, the final table holds
exactly one entry for that label, and its link and title are the ones from
the last recording in processing order. -/
theorem duplicate_label_last_write_wins (docs : List Document) (L : String)
    (p : String × AnchorEntry)
    (h : ((docs.map docContribs).flatten).reverse.find? (fun q => q.1 == L) = some p) :
    dictLookup (runDocs docs) L = some p.2 ∧
      ((runDocs docs).map Prod.fst).count L = 1 := by
  have hlk : dictLookup (runDocs docs) L = some p.2 := by
    rw [runDocs_eq_contribs, lookup_foldl, h]
    rfl
  refine ⟨hlk, ?_⟩
  have hnodup : ((runDocs docs).map Prod.fst).Nodup := by
    rw [runDocs_eq_contribs]
    apply nodup_keys_foldl
    simp
  exact List.count_eq_one_of_mem hnodup (mem_keys_of_lookup hlk)

/-- Witness for C5 at two documents both defining `dup-label`: the surviving
entry is the one of the later document. -/
theorem duplicate_label_last_write_wins_witness :
    (([c5DocOne, c5DocTwo].map docContribs).flatten).reverse.find?
        (fun q => q.1 == "dup-label") =
      some ("dup-label", { link := "/docs/two.html#dup-label", title := "T2" }) ∧
    dictLookup (runDocs [c5DocOne, c5DocTwo]) "dup-label" =
      some { link := "/docs/two.html#dup-label", title := "T2" } ∧
    ((runDocs [c5DocOne, c5DocTwo]).map Prod.fst).count "dup-label" = 1 :=
  ⟨by decide,
   (duplicate_label_last_write_wins [c5DocOne, c5DocTwo] "dup-label"
     ("dup-label", { link := "/docs/two.html#dup-label", title := "T2" }) (by decide)).1,
   (duplicate_label_last_write_wins [c5DocOne, c5DocTwo] "dup-label"
     ("dup-label", { link := "/docs/two.html#dup-label", title := "T2" }) (by decide)).2⟩

/-- C6: the serialized session output is exactly the assignment prefix,
the table rendered by the two-space-indented json dump in insertion order
(whose first key is the bootstrap key), then a semicolon and a single
trailing newline (the character before the semicolon is the closing brace
of the json object). -/
theorem serialization_format (docs : List Document) :
    sessionOutput docs =
      "const proxmoxOnlineHelpInfo = " ++ jsonDumps (runDocs docs) ++ ";\n" ∧
    ((runDocs docs).map Prod.fst).head? = some bootstrapKey ∧
    (jsonDumps (runDocs docs)).data.getLast? = some '\x7d' := by
  refine ⟨rfl, ?_, ?_⟩
  · obtain ⟨e, rest, h⟩ := runDocs_head docs
    rw [h]
    simp
  · obtain ⟨e, rest, h⟩ := runDocs_head docs
    rw [h]
    show ("\x7b\n" ++ dumpItems ((bootstrapKey, e) :: rest) ++ "\n\x7d").data.getLast? =
      some '\x7d'
    rw [String.data_append, String.data_append, List.getLast?_append]
    rfl

/-- C8 counterexample: a section whose raw title is the empty string is
recorded with an empty title, so not every entry of the final table has a
non-empty title. -/
theorem nonempty_fields_counterexample :
    ¬ (∀ p ∈ runDocs [c8BadDoc], p.2.link ≠ "" ∧ p.2.title ≠ "") := by
  decide

/-- An entry contributed by a section whose title satisfies `titleOk` has a
non-empty link and a non-empty title. -/
theorem sectionEntry?_fields_nonempty (path : String) (n : SectionNode)
    (ht : titleOk n = true) :
    ∀ k e, sectionEntry? path n = some (k, e) → e.link ≠ "" ∧ e.title ≠ "" := by
  intro k e h
  have ht' : (n.titleNode.rawsource.getD n.titleNode.astext).data ≠ [] ∧
      ((n.titleNode.rawsource.getD n.titleNode.astext).data.take 7 = (":term:`").data →
        9 ≤ (n.titleNode.rawsource.getD n.titleNode.astext).data.length) := by
    simp only [titleOk, Bool.and_eq_true, Bool.or_eq_true, Bool.not_eq_true',
      List.isEmpty_eq_false, beq_eq_false_iff_ne, ne_eq, decide_eq_true_eq] at ht
    refine ⟨ht.1, ?_⟩
    intro hc
    rcases ht.2 with hne | hle
    · exact absurd hc hne
    · exact hle
  unfold sectionEntry? at h
  by_cases hcond : (n.expect_referenced_by_id && decide (n.ids.length > 1)) = true
  · rw [if_pos hcond] at h
    simp only [Option.some.injEq, Prod.mk.injEq] at h
    obtain ⟨-, he⟩ := h
    subst he
    constructor
    · apply string_ne_empty
      simp only [String.data_append]
      intro hc
      have hc1 := (List.append_eq_nil.mp hc).1
      have hc2 := (List.append_eq_nil.mp hc1).1
      have hc3 := (List.append_eq_nil.mp hc2).1
      exact (by decide : ("/docs/" : String).data ≠ []) hc3
    · show extractRefName n.titleNode ≠ ""
      unfold extractRefName
      dsimp only
      split
      · next hm =>
        apply string_ne_empty
        apply List.ne_nil_of_length_pos
        rw [List.length_dropLast, List.length_drop]
        have := ht'.2 hm
        omega
      · exact string_ne_empty ht'.1
  · rw [if_neg hcond] at h
    exact absurd h (by simp)

/-- An entry contributed by any processed section has a non-empty link,
with no condition on the section: the link always begins with `/docs/`. -/
theorem sectionEntry?_link_nonempty (path : String) (n : SectionNode) :
    ∀ k e, sectionEntry? path n = some (k, e) → e.link ≠ "" := by
  intro k e h
  unfold sectionEntry? at h
  by_cases hcond : (n.expect_referenced_by_id && decide (n.ids.length > 1)) = true
  · rw [if_pos hcond] at h
    simp only [Option.some.injEq, Prod.mk.injEq] at h
    obtain ⟨-, he⟩ := h
    subst he
    apply string_ne_empty
    simp only [String.data_append]
    intro hc
    have hc1 := (List.append_eq_nil.mp hc).1
    have hc2 := (List.append_eq_nil.mp hc1).1
    have hc3 := (List.append_eq_nil.mp hc2).1
    exact (by decide : ("/docs/" : String).data ≠ []) hc3
  · rw [if_neg hcond] at h
    exact absurd h (by simp)

/-- A dict assignment of an entry satisfying a property into a table all of
whose entries satisfy it keeps every entry satisfying it. -/
theorem dictInsert_entry_prop (P : AnchorEntry → Prop) {t : AnchorTable}
    {k : String} {v : AnchorEntry}
    (ht : ∀ p ∈ t, P p.2) (hv : P v) :
    ∀ p ∈ dictInsert t k v, P p.2 := by
  intro p hp
  unfold dictInsert at hp
  split at hp
  · obtain ⟨q, hq, hfq⟩ := List.mem_map.mp hp
    by_cases hqk : (q.1 == k) = true
    · rw [if_pos hqk] at hfq
      rw [← hfq]
      exact hv
    · rw [if_neg hqk] at hfq
      rw [← hfq]
      exact ht q hq
  · rcases List.mem_append.mp hp with hmem | hmem
    · exact ht p hmem
    · have hpkv : p = (k, v) := by simpa using hmem
      subst hpkv
      exact hv

/-- Folding dict assignments of entries satisfying a property preserves
that property across the whole table. -/
theorem foldl_entry_prop (P : AnchorEntry → Prop) (l : List (String × AnchorEntry)) :
    ∀ t : AnchorTable, (∀ p ∈ t, P p.2) → (∀ q ∈ l, P q.2) →
      ∀ p ∈ l.foldl (fun t p => dictInsert t p.1 p.2) t, P p.2 := by
  induction l with
  | nil =>
    intro t ht _ p hp
    exact ht p hp
  | cons q l ih =>
    intro t ht hl p hp
    simp only [List.foldl_cons] at hp
    exact ih _ (dictInsert_entry_prop P ht (hl q (List.mem_cons_self _ _)))
      (fun q' hq' => hl q' (List.mem_cons_of_mem _ hq')) p hp

/-- C8 amended: every key of the final table maps to an entry whose link is
non-empty, unconditionally; its title is also non-empty provided every
processed section's raw title text is non-empty and, when it begins with
the `:term:` marker, is at least nine characters long. -/
theorem nonempty_fields_amended (docs : List Document) :
    (∀ p ∈ runDocs docs, p.2.link ≠ "") ∧
    ((∀ d ∈ docs, ∀ s ∈ d.sections, titleOk s = true) →
      ∀ p ∈ runDocs docs, p.2.title ≠ "") := by
  constructor
  · rw [runDocs_eq_contribs]
    apply foldl_entry_prop (fun e => e.link ≠ "")
    · intro p hp
      have hpb : p = (bootstrapKey, bootstrapEntry) := by simpa using hp
      subst hpb
      exact (by decide : bootstrapEntry.link ≠ "")
    · intro q hq
      obtain ⟨c, hcmem, hqc⟩ := List.mem_flatten.mp hq
      obtain ⟨d, hd, rfl⟩ := List.mem_map.mp hcmem
      obtain ⟨s, hs, hsq⟩ := List.mem_filterMap.mp hqc
      exact sectionEntry?_link_nonempty d.path s q.1 q.2 hsq
  · intro h p hp
    rw [runDocs_eq_contribs] at hp
    refine (foldl_entry_prop (fun e => e.link ≠ "" ∧ e.title ≠ "")
      ((docs.map docContribs).flatten) [(bootstrapKey, bootstrapEntry)] ?_ ?_ p hp).2
    · intro p' hp'
      have hpb : p' = (bootstrapKey, bootstrapEntry) := by simpa using hp'
      subst hpb
      exact ⟨by decide, by decide⟩
    · intro q hq
      obtain ⟨c, hcmem, hqc⟩ := List.mem_flatten.mp hq
      obtain ⟨d, hd, rfl⟩ := List.mem_map.mp hcmem
      obtain ⟨s, hs, hsq⟩ := List.mem_filterMap.mp hqc
      exact sectionEntry?_fields_nonempty d.path s (h d hd s hs) q.1 q.2 hsq

/-- Witness for the amended C8 at a document whose single section carries a
well-formed term-wrapped title, discharging the title hypothesis. -/
theorem nonempty_fields_amended_witness :
    (∀ p ∈ runDocs [c8GoodDoc], p.2.link ≠ "") ∧
      (∀ d ∈ [c8GoodDoc], ∀ s ∈ d.sections, titleOk s = true) ∧
      (∀ p ∈ runDocs [c8GoodDoc], p.2.title ≠ "") :=
  ⟨(nonempty_fields_amended [c8GoodDoc]).1, by decide,
   (nonempty_fields_amended [c8GoodDoc]).2 (by decide)⟩
